import Mathlib

/-!
Verification of the worker orchestration and resource-pool subsystem of
`smg` (`bindings/python/src/smg/serve.py` and
`e2e_test/fixtures/setup_backend.py`), as a shallow embedding in Lean 4.

Machine integers do not overflow in the modelled code (ports, counts and
GPU indices are small), so numbers are embedded as `Nat`/`Int`.
External effects (socket binds, random jumps, process observations,
network probes) are passed in as explicit oracle parameters.
-/

namespace Smg

/-! ## Port discovery: `_find_available_ports` (serve.py:303-319)

The Python loop appends a candidate whose bind test succeeds and then
advances the cursor by `random.randint(1, 5)`; a failed bind advances the
cursor by 1.  After either advance, `candidate > 65535` raises
`RuntimeError` (the `ResourceExhausted` failure).  The bind oracle is
`avail : Nat → Bool` and the random stream is `r : Nat → Nat`; the k-th
call of `random.randint(1, 5)` is embedded as `r k % 5 + 1`, which ranges
over `[1, 5]` exactly as `randint` does.

The `while` loop terminates because the cursor strictly increases and the
loop aborts once it passes 65535; `fuel` is an upper bound on the number
of remaining iterations, and `findPortsLoop_fuel_irrelevant` below shows
any fuel above the bound `65536 - candidate` gives the same result, so
the top-level `findPorts` (fuel 70000) is fuel-independent. -/

inductive PortErr where
  | resourceExhausted : PortErr
  deriving DecidableEq, Repr

/-- One step per Python `while` iteration: `k` counts calls to the random
stream, `ports` is the accumulator, `candidate` the cursor. -/
def findPortsLoop (avail : Nat → Bool) (r : Nat → Nat) (count : Nat) :
    Nat → Nat → List Nat → Nat → Except PortErr (List Nat)
  | fuel, k, ports, candidate =>
    if ports.length < count then
      match fuel with
      | 0 => .error .resourceExhausted
      | fuel + 1 =>
        if avail candidate then
          let candidate' := candidate + (r k % 5 + 1)
          if candidate' > 65535 then .error .resourceExhausted
          else findPortsLoop avail r count fuel (k + 1) (ports ++ [candidate]) candidate'
        else
          if candidate + 1 > 65535 then .error .resourceExhausted
          else findPortsLoop avail r count fuel (k + 1) ports (candidate + 1)
    else .ok ports

/-- `_find_available_ports(base_port, count)`. -/
def findPorts (avail : Nat → Bool) (r : Nat → Nat) (base_port count : Nat) :
    Except PortErr (List Nat) :=
  findPortsLoop avail r count 70000 0 [] base_port

/-- Any fuel strictly above `65536 - candidate` behaves the same:
the cursor strictly increases each iteration and recursion only continues
while it is at most 65535. -/
theorem findPortsLoop_fuel_irrelevant (avail : Nat → Bool) (r : Nat → Nat)
    (count : Nat) :
    ∀ fuel k ports candidate, 65536 - candidate < fuel →
      findPortsLoop avail r count fuel k ports candidate =
        findPortsLoop avail r count (fuel + 1) k ports candidate := by
  intro fuel
  induction fuel with
  | zero => intro k ports candidate h; omega
  | succ fuel ih =>
    intro k ports candidate h
    rw [findPortsLoop, findPortsLoop]
    by_cases hlen : ports.length < count
    · rw [if_pos hlen, if_pos hlen]
      by_cases hav : avail candidate
      · rw [if_pos hav, if_pos hav]
        by_cases hover : candidate + (r k % 5 + 1) > 65535
        · rw [if_pos hover, if_pos hover]
        · rw [if_neg hover, if_neg hover]
          exact ih (k + 1) (ports ++ [candidate]) (candidate + (r k % 5 + 1))
            (by omega)
      · rw [if_neg hav, if_neg hav]
        by_cases hover : candidate + 1 > 65535
        · rw [if_pos hover, if_pos hover]
        · rw [if_neg hover, if_neg hover]
          exact ih (k + 1) ports (candidate + 1) (by omega)
    · rw [if_neg hlen, if_neg hlen]

/-- A successful run of the port loop appends a strictly increasing tail of
ports, each at least the entry cursor and at most 65534 (after appending a
port the cursor advances by at least 1 and must still be at most 65535 for
the loop to continue or return). -/
theorem findPortsLoop_ok (avail : Nat → Bool) (r : Nat → Nat) (count : Nat) :
    ∀ fuel k ports candidate res,
      findPortsLoop avail r count fuel k ports candidate = .ok res →
      ports.length ≤ count →
      res.length = count ∧
      ∃ tail, res = ports ++ tail ∧
        (∀ p ∈ tail, candidate ≤ p ∧ p ≤ 65534) ∧
        List.Sorted (· < ·) tail := by
  intro fuel
  induction fuel with
  | zero =>
    intro k ports candidate res h hlen
    rw [findPortsLoop] at h
    by_cases hl : ports.length < count
    · rw [if_pos hl] at h; simp at h
    · rw [if_neg hl] at h
      cases h
      exact ⟨by omega, [], by simp, by simp, List.sorted_nil⟩
  | succ fuel ih =>
    intro k ports candidate res h hlen
    rw [findPortsLoop] at h
    by_cases hl : ports.length < count
    · rw [if_pos hl] at h
      by_cases hav : avail candidate
      · rw [if_pos hav] at h
        by_cases hover : candidate + (r k % 5 + 1) > 65535
        · rw [if_pos hover] at h; simp at h
        · rw [if_neg hover] at h
          obtain ⟨hres, tail, htl, htail, hsort⟩ :=
            ih _ _ _ _ h (by simpa using hl)
          refine ⟨hres, candidate :: tail, by rw [htl]; simp, ?_, ?_⟩
          · intro p hp
            rcases List.mem_cons.mp hp with rfl | hp
            · exact ⟨le_refl _, by omega⟩
            · obtain ⟨h1, h2⟩ := htail p hp
              exact ⟨by omega, h2⟩
          · rw [List.sorted_cons]
            refine ⟨fun b hb => ?_, hsort⟩
            obtain ⟨h1, _⟩ := htail b hb
            omega
      · rw [if_neg hav] at h
        by_cases hover : candidate + 1 > 65535
        · rw [if_pos hover] at h; simp at h
        · rw [if_neg hover] at h
          obtain ⟨hres, tail, htl, htail, hsort⟩ := ih _ _ _ _ h hlen
          refine ⟨hres, tail, htl, ?_, hsort⟩
          intro p hp
          obtain ⟨h1, h2⟩ := htail p hp
          exact ⟨by omega, h2⟩
    · rw [if_neg hl] at h
      cases h
      exact ⟨by omega, [], by simp, by simp, List.sorted_nil⟩

/-- When no port from the cursor up to 65535 is available and more ports are
still needed, the loop fails with `ResourceExhausted`. -/
theorem findPortsLoop_exhausted (avail : Nat → Bool) (r : Nat → Nat)
    (count : Nat) :
    ∀ fuel k ports candidate,
      (∀ p, candidate ≤ p → p ≤ 65535 → avail p = false) →
      ports.length < count →
      findPortsLoop avail r count fuel k ports candidate =
        .error .resourceExhausted := by
  intro fuel
  induction fuel with
  | zero =>
    intro k ports candidate _ hlen
    rw [findPortsLoop, if_pos hlen]
  | succ fuel ih =>
    intro k ports candidate hno hlen
    rw [findPortsLoop, if_pos hlen]
    by_cases hbig : candidate > 65535
    · by_cases hav : avail candidate
      · rw [if_pos hav, if_pos (by omega)]
      · rw [if_neg hav, if_pos (by omega)]
    · rw [if_neg (by simp [hno candidate (le_refl _) (by omega)])]
      by_cases hover : candidate + 1 > 65535
      · rw [if_pos hover]
      · rw [if_neg hover]
        exact ih (k + 1) ports (candidate + 1)
          (fun p hp hp' => hno p (by omega) hp') hlen

/-- C5: for every `base_port` and `count`, when `_find_available_ports`
returns it returns exactly `count` distinct ports, every returned port lies
in `[base_port, 65535]`; a candidate that binds successfully is added and
the cursor advances by a random jump of 1 to 5, a candidate that fails to
bind advances the cursor by 1; and the call fails with `ResourceExhausted`
when no candidate below port 65535 can be found. -/
theorem find_ports_spec (avail : Nat → Bool) (r : Nat → Nat)
    (base_port count : Nat) :
    (∀ res, findPorts avail r base_port count = .ok res →
      res.length = count ∧ res.Nodup ∧
      ∀ p ∈ res, base_port ≤ p ∧ p ≤ 65535) ∧
    (∀ fuel k ports candidate, ports.length < count →
      (avail candidate = true →
        ∃ j, 1 ≤ j ∧ j ≤ 5 ∧
          findPortsLoop avail r count (fuel + 1) k ports candidate =
            (if candidate + j > 65535 then .error .resourceExhausted
             else findPortsLoop avail r count fuel (k + 1)
               (ports ++ [candidate]) (candidate + j))) ∧
      (avail candidate = false →
        findPortsLoop avail r count (fuel + 1) k ports candidate =
          (if candidate + 1 > 65535 then .error .resourceExhausted
           else findPortsLoop avail r count fuel (k + 1) ports
             (candidate + 1)))) ∧
    ((∀ p, base_port ≤ p → p ≤ 65535 → avail p = false) → 0 < count →
      findPorts avail r base_port count = .error .resourceExhausted) := by
  refine ⟨?_, ?_, ?_⟩
  · intro res h
    obtain ⟨hres, tail, htl, htail, hsort⟩ :=
      findPortsLoop_ok avail r count 70000 0 [] base_port res h
        (Nat.zero_le _)
    simp only [List.nil_append] at htl
    subst htl
    refine ⟨hres, hsort.nodup, fun p hp => ?_⟩
    obtain ⟨h1, h2⟩ := htail p hp
    exact ⟨h1, by omega⟩
  · intro fuel k ports candidate hlen
    constructor
    · intro hav
      refine ⟨r k % 5 + 1, by omega, ?_, ?_⟩
      · have : r k % 5 < 5 := Nat.mod_lt _ (by omega)
        omega
      · rw [findPortsLoop, if_pos hlen, if_pos hav]
    · intro hav
      rw [findPortsLoop, if_pos hlen, if_neg (by simp [hav])]
  · intro hno hcount
    exact findPortsLoop_exhausted avail r count 70000 0 [] base_port hno
      (by simpa using hcount)

/-- Concrete instantiation of `find_ports_spec`: with every port available
and a zero random stream, three ports from 31000 are distinct, and with no
port available the call fails with `ResourceExhausted`. -/
theorem find_ports_spec_witness :
    ([31000, 31001, 31002] : List Nat).Nodup ∧
    findPorts (fun _ => false) (fun _ => 0) 65530 1 =
      .error .resourceExhausted := by
  constructor
  · exact ((find_ports_spec (fun _ => true) (fun _ => 0) 31000 3).1
      [31000, 31001, 31002] rfl).2.1
  · exact (find_ports_spec (fun _ => false) (fun _ => 0) 65530 1).2.2
      (fun p _ _ => rfl) (by omega)

/-! ## GPU environment: `WorkerLauncher.gpu_env` (serve.py:54-66)

Python dicts are mutable heap objects; `gpu_env` copies its argument
(`env = dict(env)`) and mutates only the copy.  To state non-mutation
(C7) the heap is explicit: a `Store` maps references (allocation indices)
to dict values, `dict(env)` allocates a fresh reference, and item
assignment mutates one reference in place.  A dict value is an
insertion-ordered association list, as in CPython: assignment to an
existing key updates it in place, a new key is appended. -/

abbrev EnvMap := List (String × String)

/-- Python `m[k] = v` on a dict value: updates the first (only) binding of
`k` in place, or appends a new binding at the end. -/
def envSet : EnvMap → String → String → EnvMap
  | [], k, v => [(k, v)]
  | (k', v') :: rest, k, v =>
    if k' = k then (k, v) :: rest else (k', v') :: envSet rest k v

/-- Python `m.get(k)` on a dict value. -/
def envGet : EnvMap → String → Option String
  | [], _ => none
  | (k', v') :: rest, k => if k' = k then some v' else envGet rest k

structure Store where
  mem : Nat → EnvMap
  next : Nat

/-- Allocation of a fresh dict object holding value `v`. -/
def Store.alloc (s : Store) (v : EnvMap) : Store × Nat :=
  ({ mem := fun i => if i = s.next then v else s.mem i, next := s.next + 1 },
   s.next)

/-- In-place mutation `ref[k] = v`. -/
def Store.setKey (s : Store) (ref : Nat) (k v : String) : Store :=
  { s with mem := fun i => if i = ref then envSet (s.mem i) k v else s.mem i }

/-- Parsed CLI namespace fields consulted by `_get_tp_size`; `none` models
an absent attribute (the `getattr` default). -/
structure Args where
  tp_size : Option Nat := none
  tensor_parallel_size : Option Nat := none

/-- `WorkerLauncher._get_tp_size` (base class): always 1. -/
def get_tp_size_base (_ : Args) : Nat := 1

/-- `SglangWorkerLauncher._get_tp_size`: `getattr(args, "tp_size", 1)`. -/
def get_tp_size_sglang (args : Args) : Nat := args.tp_size.getD 1

/-- `VllmWorkerLauncher._get_tp_size`:
`getattr(args, "tensor_parallel_size", 1)`. -/
def get_tp_size_vllm (args : Args) : Nat := args.tensor_parallel_size.getD 1

/-- The string `",".join(str(g) for g in range(base_gpu, base_gpu + tp_size))`. -/
def gpuIdsString (base_gpu tp_size : Nat) : String :=
  String.intercalate "," ((List.range' base_gpu tp_size).map Nat.repr)

/-- `WorkerLauncher.gpu_env(args, dp_rank, env)`.  The launcher's
`_get_tp_size` method is the dispatch parameter `tp`; `env` is a reference
to the caller's dict or `none` (Python `None`), in which case
`os.environ.copy()` — the ambient environment value `osEnviron` — is
copied instead. -/
def gpu_env (tp : Args → Nat) (args : Args) (dp_rank : Nat)
    (s : Store) (env : Option Nat) (osEnviron : EnvMap) : Store × Nat :=
  let (s1, ref) :=
    match env with
    | some e => s.alloc (s.mem e)
    | none => s.alloc osEnviron
  let tp_size := tp args
  let base_gpu := dp_rank * tp_size
  let s2 := s1.setKey ref "CUDA_VISIBLE_DEVICES" (gpuIdsString base_gpu tp_size)
  let s3 := s2.setKey ref "PYTHONUNBUFFERED" "1"
  (s3, ref)

theorem envGet_envSet_same (m : EnvMap) (k v : String) :
    envGet (envSet m k v) k = some v := by
  induction m with
  | nil => simp [envSet, envGet]
  | cons hd tl ih =>
    obtain ⟨k', v'⟩ := hd
    by_cases h : k' = k
    · simp [envSet, envGet, h]
    · simp [envSet, envGet, h, ih]

theorem envGet_envSet_other (m : EnvMap) (k k' v : String) (hne : k' ≠ k) :
    envGet (envSet m k v) k' = envGet m k' := by
  induction m with
  | nil => simp [envSet, envGet, Ne.symm hne]
  | cons hd tl ih =>
    obtain ⟨k₀, v₀⟩ := hd
    by_cases h : k₀ = k
    · subst h
      simp [envSet, envGet, Ne.symm hne]
    · by_cases h2 : k₀ = k'
      · subst h2
        simp [envSet, envGet, hne]
      · simp [envSet, envGet, h, h2, ih]

/-- The dict value held by the reference `gpu_env` returns: the copied
input with the two assignments applied. -/
theorem gpu_env_mem_ref (tp : Args → Nat) (args : Args) (dp_rank : Nat)
    (s : Store) (env : Option Nat) (osEnviron : EnvMap) :
    (gpu_env tp args dp_rank s env osEnviron).1.mem
      (gpu_env tp args dp_rank s env osEnviron).2 =
    envSet
      (envSet (match env with | some e => s.mem e | none => osEnviron)
        "CUDA_VISIBLE_DEVICES" (gpuIdsString (dp_rank * tp args) (tp args)))
      "PYTHONUNBUFFERED" "1" := by
  cases env <;> simp [gpu_env, Store.alloc, Store.setKey]

theorem gpuIdsString_eq_map_range (base_gpu tp_size : Nat) :
    gpuIdsString base_gpu tp_size =
      String.intercalate ","
        ((List.range tp_size).map (fun i => Nat.repr (base_gpu + i))) := by
  rw [gpuIdsString, List.range'_eq_map_range, List.map_map]
  rfl

theorem gpuIdsString_one (base_gpu : Nat) :
    gpuIdsString base_gpu 1 = Nat.repr base_gpu := rfl

/-- C6: for every `dp_rank` and tensor-parallel size, `gpu_env` sets the
GPU-visibility environment variable to the comma-joined contiguous index
range `[dp_rank*tp_size, dp_rank*tp_size + tp_size)` and sets
unbuffered-output mode; `tp_size = 2` with `dp_rank = 0` yields `"0,1"`
and with `dp_rank = 1` yields `"2,3"`, `tp_size = 4` with `dp_rank = 2`
yields `"8,9,10,11"`, and with `tp_size` unset (default 1) the value is
the single decimal index equal to `dp_rank`. -/
theorem gpu_env_gpu_partitioning :
    (∀ (tp : Args → Nat) (args : Args) (dp_rank : Nat) (s : Store)
        (env : Option Nat) (osEnviron : EnvMap),
      envGet ((gpu_env tp args dp_rank s env osEnviron).1.mem
          (gpu_env tp args dp_rank s env osEnviron).2)
          "CUDA_VISIBLE_DEVICES" =
        some (String.intercalate ","
          ((List.range (tp args)).map
            (fun i => Nat.repr (dp_rank * tp args + i)))) ∧
      envGet ((gpu_env tp args dp_rank s env osEnviron).1.mem
          (gpu_env tp args dp_rank s env osEnviron).2)
          "PYTHONUNBUFFERED" = some "1") ∧
    (∀ (args : Args) (dp_rank : Nat) (s : Store) (env : Option Nat)
        (osEnviron : EnvMap), args.tp_size = none →
      envGet ((gpu_env get_tp_size_sglang args dp_rank s env
            osEnviron).1.mem
          (gpu_env get_tp_size_sglang args dp_rank s env osEnviron).2)
          "CUDA_VISIBLE_DEVICES" = some (Nat.repr dp_rank)) ∧
    gpuIdsString (0 * 2) 2 = "0,1" ∧
    gpuIdsString (1 * 2) 2 = "2,3" ∧
    gpuIdsString (2 * 4) 4 = "8,9,10,11" := by
  refine ⟨?_, ?_, rfl, rfl, rfl⟩
  · intro tp args dp_rank s env osEnviron
    rw [gpu_env_mem_ref]
    constructor
    · rw [envGet_envSet_other _ _ _ _ (by decide), envGet_envSet_same,
        gpuIdsString_eq_map_range]
    · rw [envGet_envSet_same]
  · intro args dp_rank s env osEnviron hnone
    rw [gpu_env_mem_ref,
      envGet_envSet_other _ _ _ _ (by decide), envGet_envSet_same]
    have htp : get_tp_size_sglang args = 1 := by
      rw [get_tp_size_sglang, hnone]
      rfl
    rw [htp, Nat.mul_one, gpuIdsString_one]

/-- Concrete instantiation of `gpu_env_gpu_partitioning`: with `tp_size`
unset, rank 3 gets the single GPU index `"3"`. -/
theorem gpu_env_gpu_partitioning_witness :
    envGet ((gpu_env get_tp_size_sglang ⟨none, none⟩ 3
          ⟨fun _ => [], 1⟩ (some 0) []).1.mem
        (gpu_env get_tp_size_sglang ⟨none, none⟩ 3
          ⟨fun _ => [], 1⟩ (some 0) []).2)
        "CUDA_VISIBLE_DEVICES" = some "3" :=
  gpu_env_gpu_partitioning.2.1 ⟨none, none⟩ 3 ⟨fun _ => [], 1⟩ (some 0) []
    rfl

/-- C7: `gpu_env` never mutates the caller's environment mapping: the
caller's dict object is unchanged after the call, the returned reference
is a different object, and the two additions appear in the returned copy. -/
theorem gpu_env_no_mutation (tp : Args → Nat) (args : Args) (dp_rank : Nat)
    (s : Store) (e : Nat) (osEnviron : EnvMap) (he : e < s.next) :
    (gpu_env tp args dp_rank s (some e) osEnviron).1.mem e = s.mem e ∧
    (gpu_env tp args dp_rank s (some e) osEnviron).2 ≠ e ∧
    envGet ((gpu_env tp args dp_rank s (some e) osEnviron).1.mem
        (gpu_env tp args dp_rank s (some e) osEnviron).2)
        "PYTHONUNBUFFERED" = some "1" := by
  have hne : e ≠ s.next := Nat.ne_of_lt he
  refine ⟨?_, ?_, ?_⟩
  · simp [gpu_env, Store.alloc, Store.setKey, hne]
  · simp [gpu_env, Store.alloc]
    exact fun h => hne h.symm
  · rw [gpu_env_mem_ref, envGet_envSet_same]

/-- Concrete instantiation of `gpu_env_no_mutation`: a caller dict holding
only `HOME` is unchanged by the call. -/
theorem gpu_env_no_mutation_witness :
    (gpu_env get_tp_size_base ⟨none, none⟩ 0
        ⟨fun _ => [("HOME", "/root")], 1⟩ (some 0) []).1.mem 0 =
      [("HOME", "/root")] :=
  (gpu_env_no_mutation get_tp_size_base ⟨none, none⟩ 0
    ⟨fun _ => [("HOME", "/root")], 1⟩ 0 [] Nat.zero_lt_one).1

/-! ## Backend-argument filtering: `WorkerLauncher._filter_backend_args`
(serve.py:68-85)

Tokens are strings; `arg.split("=", 1)[0]` is the prefix before the first
`'='` and `"=" in arg` is a character-containment test. -/

/-- Python `arg.split("=", 1)[0]`. -/
def keyOf (arg : String) : String :=
  String.mk (arg.toList.takeWhile (fun c => c ≠ '='))

/-- Python `"=" in arg`. -/
def hasEq (arg : String) : Bool := arg.toList.contains '='

/-- The loop of `_filter_backend_args`; the Boolean is the `skip_next`
flag. -/
def filterLoop (filter_args : List String) : Bool → List String → List String
  | _, [] => []
  | true, _ :: rest => filterLoop filter_args false rest
  | false, arg :: rest =>
    if keyOf arg ∈ filter_args then
      if ¬hasEq arg then filterLoop filter_args true rest
      else filterLoop filter_args false rest
    else arg :: filterLoop filter_args false rest

/-- `_filter_backend_args(backend_args, filter_args)`. -/
def _filter_backend_args (backend_args filter_args : List String) :
    List String :=
  filterLoop filter_args false backend_args

theorem filterLoop_sublist (filter_args : List String) :
    ∀ sk backend_args,
      (filterLoop filter_args sk backend_args).Sublist backend_args := by
  intro sk backend_args
  induction backend_args generalizing sk with
  | nil => cases sk <;> exact List.Sublist.refl _
  | cons arg rest ih =>
    cases sk with
    | true => exact (ih false).cons _
    | false =>
      rw [filterLoop]
      by_cases hk : keyOf arg ∈ filter_args
      · rw [if_pos hk]
        by_cases he : hasEq arg
        · rw [if_neg (by simp [he])]
          exact (ih false).cons _
        · rw [if_pos (by simp [he])]
          exact (ih true).cons _
      · rw [if_neg hk]
        exact (ih false).cons₂ _

theorem filterLoop_key_not_mem (filter_args : List String) :
    ∀ sk backend_args t, t ∈ filterLoop filter_args sk backend_args →
      keyOf t ∉ filter_args := by
  intro sk backend_args
  induction backend_args generalizing sk with
  | nil =>
    intro t ht
    cases sk <;> simp [filterLoop] at ht
  | cons arg rest ih =>
    intro t ht
    cases sk with
    | true => exact ih false t ht
    | false =>
      rw [filterLoop] at ht
      by_cases hk : keyOf arg ∈ filter_args
      · rw [if_pos hk] at ht
        by_cases he : hasEq arg
        · rw [if_neg (by simp [he])] at ht
          exact ih false t ht
        · rw [if_pos (by simp [he])] at ht
          exact ih true t ht
      · rw [if_neg hk] at ht
        rcases List.mem_cons.mp ht with rfl | ht'
        · exact hk
        · exact ih false t ht'

/-- C9: the filter removes launcher-managed keys in both the
`--key value` form (dropping the key token and its value token) and the
`--key=value` form (dropping the single token), and all tokens it does not
remove keep their original relative order: the output is a sublist of the
input, every output token's key part is unmanaged, an unmanaged head token
is kept, a managed `--key=value` head is dropped alone, and a managed
`--key` head is dropped together with its value token. -/
theorem filter_backend_args_spec (filter_args : List String) :
    (∀ backend_args,
      (_filter_backend_args backend_args filter_args).Sublist
        backend_args) ∧
    (∀ backend_args t,
      t ∈ _filter_backend_args backend_args filter_args →
      keyOf t ∉ filter_args) ∧
    (∀ arg rest, keyOf arg ∉ filter_args →
      _filter_backend_args (arg :: rest) filter_args =
        arg :: _filter_backend_args rest filter_args) ∧
    (∀ arg rest, keyOf arg ∈ filter_args → hasEq arg = true →
      _filter_backend_args (arg :: rest) filter_args =
        _filter_backend_args rest filter_args) ∧
    (∀ arg value rest, keyOf arg ∈ filter_args → hasEq arg = false →
      _filter_backend_args (arg :: value :: rest) filter_args =
        _filter_backend_args rest filter_args) := by
  refine ⟨fun backend_args => filterLoop_sublist filter_args false
      backend_args,
    fun backend_args t => filterLoop_key_not_mem filter_args false
      backend_args t, ?_, ?_, ?_⟩
  · intro arg rest hk
    rw [_filter_backend_args, filterLoop, if_neg hk]
    rfl
  · intro arg rest hk he
    rw [_filter_backend_args, filterLoop, if_pos hk,
      if_neg (by simp [he])]
    rfl
  · intro arg value rest hk he
    rw [_filter_backend_args, filterLoop, if_pos hk, if_pos (by simp [he])]
    rfl

/-- Concrete instantiation of `filter_backend_args_spec`: filtering
`--model-path m --tp-size 2` against the sglang-managed keys keeps exactly
the unmanaged pair. -/
theorem filter_backend_args_spec_witness :
    _filter_backend_args ["--model-path", "m", "--tp-size", "2"]
        ["--model-path", "--host", "--port"] = ["--tp-size", "2"] := by
  rw [(filter_backend_args_spec _).2.2.2.2 "--model-path" "m" _
      (by decide) (by decide),
    (filter_backend_args_spec _).2.2.1 "--tp-size" _ (by decide),
    (filter_backend_args_spec _).2.2.1 "2" _ (by decide)]
  rfl

/-- C10: when a managed key appears in bare `--key` form, the filter
unconditionally drops the immediately following token as its value, even
when that token is itself another (unmanaged) flag, which is then silently
removed; in `--key=value` form exactly one token is dropped and the
following token is kept. -/
theorem filter_drops_next_token (filter_args : List String) :
    (∀ arg t rest, keyOf arg ∈ filter_args → hasEq arg = false →
      _filter_backend_args (arg :: t :: rest) filter_args =
        _filter_backend_args rest filter_args) ∧
    (∀ arg t rest, keyOf arg ∈ filter_args → hasEq arg = true →
      keyOf t ∉ filter_args →
      _filter_backend_args (arg :: t :: rest) filter_args =
        t :: _filter_backend_args rest filter_args) ∧
    _filter_backend_args ["--host", "--custom-flag"] ["--host"] = [] ∧
    _filter_backend_args ["--host=0.0.0.0", "--custom-flag"] ["--host"] =
      ["--custom-flag"] := by
  refine ⟨?_, ?_, by decide, by decide⟩
  · intro arg t rest hk he
    rw [_filter_backend_args, filterLoop, if_pos hk, if_pos (by simp [he])]
    rfl
  · intro arg t rest hk he ht
    rw [_filter_backend_args, filterLoop, if_pos hk, if_neg (by simp [he])]
    rw [_filter_backend_args, filterLoop, if_neg ht]

/-- Concrete instantiation of `filter_drops_next_token`: `--custom-flag`
right after bare `--host` is silently dropped, but survives after
`--host=0.0.0.0`. -/
theorem filter_drops_next_token_witness :
    _filter_backend_args ["--host", "--custom-flag", "x"] ["--host"] =
        ["x"] ∧
    _filter_backend_args ["--host=1", "--custom-flag", "x"] ["--host"] =
        ["--custom-flag", "x"] := by
  constructor
  · rw [(filter_drops_next_token ["--host"]).1 "--host" "--custom-flag"
      ["x"] (by decide) (by decide)]
    decide
  · rw [(filter_drops_next_token ["--host"]).2.1 "--host=1" "--custom-flag"
      ["x"] (by decide) (by decide) (by decide)]
    decide

/-! ## Health checks: `_http_health_check`, `_grpc_health_check` and the
`WorkerLauncher.health_check` dispatcher (serve.py:42-46, 242-295)

The network is an oracle.  For HTTP, `net url` is the outcome of the GET
inside the `try` block: a returned response carrying a status code, or
any exception (network refusal, protocol error, non-success status raised
by `urlopen`).  For gRPC, the environment carries whether the libraries
import, the outcome of `stub.Check`, and whether the channel-ready
fallback succeeds within its timeout (`false` covering fallback timeout
and any fallback exception). -/

inductive HttpOutcome where
  | response (status : Nat)
  | exn
  deriving DecidableEq, Repr

/-- `_http_health_check(url, timeout)`. -/
def _http_health_check (net : String → HttpOutcome) (url : String) :
    Bool :=
  match net url with
  | .response s => s == 200
  | .exn => false

inductive GrpcCode where
  | unimplemented
  | otherCode
  deriving DecidableEq, Repr

inductive GrpcCheckOutcome where
  | response (status : Nat)
  | rpcError (code : Option GrpcCode)
  | exn
  deriving DecidableEq, Repr

/-- `health_pb2.HealthCheckResponse.SERVING`. -/
def SERVING : Nat := 1

structure GrpcEnv where
  importOk : Bool
  check : GrpcCheckOutcome
  channelReady : Bool
  deriving DecidableEq, Repr

/-- `_grpc_health_check(host, port, timeout)`: `ImportError` yields
`False`; a `Check` response is healthy iff its status is `SERVING`; an
`RpcError` whose `code()` is `UNIMPLEMENTED` falls back to
`channel_ready_future` (healthy iff ready in time); every other error
yields `False`. -/
def _grpc_health_check (e : GrpcEnv) : Bool :=
  if ¬e.importOk then false
  else
    match e.check with
    | .response status => status == SERVING
    | .rpcError code =>
      if code = some .unimplemented then e.channelReady else false
    | .exn => false

/-- `WorkerLauncher.health_check(args, host, port, timeout)`:
dispatches on `getattr(args, "connection_mode", "grpc")`. -/
def health_check (connection_mode : Option String)
    (net : String → HttpOutcome) (grpcEnv : GrpcEnv)
    (host : String) (port : Nat) : Bool :=
  if connection_mode.getD "grpc" = "grpc" then _grpc_health_check grpcEnv
  else _http_health_check net
    ("http://" ++ host ++ ":" ++ Nat.repr port ++ "/health")

/-- What the claim counts as a network or protocol error during the gRPC
probe: the `Check` call raised instead of returning a response. -/
def isGrpcProbeError : GrpcCheckOutcome → Bool
  | .response _ => false
  | .rpcError _ => true
  | .exn => true

/-- C8 counterexample: an `UNIMPLEMENTED` RPC error during the gRPC probe
with a ready channel yields `true`, not `false`, refuting that any
network or protocol error during either probe results in `false`. -/
theorem health_check_error_false_counterexample :
    isGrpcProbeError (.rpcError (some .unimplemented)) = true ∧
    _grpc_health_check ⟨true, .rpcError (some .unimplemented), true⟩ =
      true := by
  constructor <;> rfl

/-- C8 (amended): both probes are total Boolean functions (exceptions are
swallowed); the HTTP probe is healthy iff the GET to `<url>/health`
returns status exactly 200, so every HTTP-side error yields `false`; the
gRPC probe is healthy iff the libraries import and either the health RPC
reports `SERVING` or it fails with `UNIMPLEMENTED` and the channel-ready
fallback succeeds, so every gRPC-side error other than `UNIMPLEMENTED`
yields `false`. -/
theorem health_check_spec :
    (∀ (net : String → HttpOutcome) (grpcEnv : GrpcEnv) (host : String)
        (port : Nat),
      (health_check (some "http") net grpcEnv host port = true ↔
        net ("http://" ++ host ++ ":" ++ Nat.repr port ++ "/health") =
          .response 200)) ∧
    (∀ (net : String → HttpOutcome) (url : String),
      net url = .exn → _http_health_check net url = false) ∧
    (∀ e : GrpcEnv,
      (_grpc_health_check e = true ↔
        e.importOk = true ∧
          (e.check = .response SERVING ∨
            (e.check = .rpcError (some .unimplemented) ∧
              e.channelReady = true)))) ∧
    (∀ e : GrpcEnv, isGrpcProbeError e.check = true →
      e.check ≠ .rpcError (some .unimplemented) →
      _grpc_health_check e = false) := by
  refine ⟨?_, ?_, ?_, ?_⟩
  · intro net grpcEnv host port
    rw [health_check, if_neg (by decide), _http_health_check]
    cases hnet : net ("http://" ++ host ++ ":" ++ Nat.repr port ++
        "/health") with
    | response s =>
      simp only [beq_iff_eq]
      constructor
      · intro h; rw [h]
      · intro h; cases h; rfl
    | exn => simp
  · intro net url h
    rw [_http_health_check, h]
  · intro e
    obtain ⟨imp, chk, rdy⟩ := e
    cases imp with
    | false => simp [_grpc_health_check]
    | true =>
      cases chk with
      | response status =>
        simp [_grpc_health_check, beq_iff_eq]
      | rpcError code =>
        by_cases hc : code = some GrpcCode.unimplemented
        · subst hc
          simp [_grpc_health_check]
        · simp [_grpc_health_check, hc]
      | exn => simp [_grpc_health_check]
  · intro e herr hne
    obtain ⟨imp, chk, rdy⟩ := e
    cases chk with
    | response status => simp [isGrpcProbeError] at herr
    | rpcError code =>
      cases imp with
      | false => simp [_grpc_health_check]
      | true =>
        have hc : code ≠ some GrpcCode.unimplemented := by
          intro h; exact hne (by rw [h])
        simp [_grpc_health_check, hc]
    | exn => cases imp <;> simp [_grpc_health_check]

/-- Concrete instantiation of `health_check_spec`: a refused HTTP
connection polls as unhealthy. -/
theorem health_check_spec_witness :
    _http_health_check (fun _ => .exn) "http://127.0.0.1:31000/health" =
      false :=
  health_check_spec.2.1 (fun _ => .exn) "http://127.0.0.1:31000/health"
    rfl

/-! ## Pool acquisition fixtures (e2e_test/fixtures/setup_backend.py)

`ModelPool` itself is not under `src/`; only its callers are.  Its
reference counts are embedded as an explicit map `RefCounts`, and its
operations are oracles: per the fixture comments, `get_workers_by_type`
auto-acquires every worker it returns (the caller supplies that list),
and `launch_workers` either returns the newly launched instances (not yet
acquired; an empty list when no GPUs could be allocated) or raises
`RuntimeError` — the same error the fixtures' `except` blocks convert via
`isinstance(e, RuntimeError)`.

`pytest.fail` raises `Failed`, a `BaseException` (not an `Exception`), so
it is not intercepted by the fixtures' `except Exception` blocks; it is
embedded as the error `insufficientCapacity` propagating without running
those blocks. -/

inductive WorkerType where
  | regular | prefill | decode
  deriving DecidableEq, Repr

inductive ConnMode where
  | http | grpc
  deriving DecidableEq, Repr

structure PoolWorker where
  wid : Nat
  mode : ConnMode
  wtype : WorkerType
  deriving DecidableEq, Repr

/-- Pool reference counts by worker id; `Int`-valued so that unbalanced
acquire/release sequences are visible as a nonzero net effect. -/
abbrev RefCounts := Nat → Int

def acquireW (st : RefCounts) (w : PoolWorker) : RefCounts :=
  fun i => if i = w.wid then st i + 1 else st i

def releaseW (st : RefCounts) (w : PoolWorker) : RefCounts :=
  fun i => if i = w.wid then st i - 1 else st i

def acquireAll (st : RefCounts) (ws : List PoolWorker) : RefCounts :=
  ws.foldl acquireW st

def releaseAll (st : RefCounts) (ws : List PoolWorker) : RefCounts :=
  ws.foldl releaseW st

inductive LaunchOutcome where
  | ok (new_instances : List PoolWorker)
  | raiseRuntime
  deriving DecidableEq, Repr

inductive SetupErr where
  | insufficientCapacity
  | raised
  deriving DecidableEq, Repr

/-- The acquisition phase of `_setup_local_backend` (setup_backend.py:
549-601), `num_workers > 1` branch: `get_workers_by_type` auto-acquires
`all_existing`; wrong-mode workers are released; when enough
matching-mode workers exist the excess is released and the first
`num_workers` are used; otherwise the shortfall is launched.  On a
`RuntimeError` from `launch_workers` the `except Exception` block
releases the current value of `instances` — still the empty list bound
before the `try` — and calls `pytest.fail`. -/
def _setup_local_backend_acquire (all_existing : List PoolWorker)
    (mode : ConnMode) (num_workers : Nat) (launch : LaunchOutcome)
    (st : RefCounts) : RefCounts × Except SetupErr (List PoolWorker) :=
  let st1 := acquireAll st all_existing
  let existing_for_mode := all_existing.filter (fun w => w.mode = mode)
  let st2 := releaseAll st1 (all_existing.filter (fun w => ¬w.mode = mode))
  if num_workers ≤ existing_for_mode.length then
    let instances := existing_for_mode.take num_workers
    let st3 := releaseAll st2 (existing_for_mode.drop num_workers)
    if instances.isEmpty then (st3, .error .insufficientCapacity)
    else (st3, .ok instances)
  else
    match launch with
    | .raiseRuntime =>
      let st3 := releaseAll st2 ([] : List PoolWorker)
      (st3, .error .insufficientCapacity)
    | .ok new_instances =>
      let st3 := acquireAll st2 new_instances
      let instances := existing_for_mode ++ new_instances
      if instances.isEmpty then (st3, .error .insufficientCapacity)
      else (st3, .ok instances)

/-- The acquisition phase of `_setup_pd_backend_common`
(setup_backend.py:292-420): both worker lists are auto-acquired,
wrong-mode workers are released, and `acquired_workers` is set to the
matching existing workers before `launch_workers` runs, so the
`except Exception` block releases them when `launch_workers` raises; an
empty launch result goes through `pytest.fail`, which the block does not
intercept. -/
def _setup_pd_backend_acquire (all_prefills all_decodes : List PoolWorker)
    (mode : ConnMode) (num_prefill num_decode : Nat)
    (launch : LaunchOutcome) (st : RefCounts) :
    RefCounts × Except SetupErr (List PoolWorker × List PoolWorker) :=
  let st1 := acquireAll (acquireAll st all_prefills) all_decodes
  let existing_prefills := all_prefills.filter (fun w => w.mode = mode)
  let existing_decodes := all_decodes.filter (fun w => w.mode = mode)
  let st2 := releaseAll st1 (all_prefills.filter (fun w => ¬w.mode = mode))
  let st3 := releaseAll st2 (all_decodes.filter (fun w => ¬w.mode = mode))
  let missing_prefill := num_prefill - existing_prefills.length
  let missing_decode := num_decode - existing_decodes.length
  if missing_prefill = 0 ∧ missing_decode = 0 then
    let prefills := existing_prefills.take num_prefill
    let decodes := existing_decodes.take num_decode
    let st4 := releaseAll st3 (existing_prefills.drop num_prefill)
    let st5 := releaseAll st4 (existing_decodes.drop num_decode)
    if prefills.isEmpty ∨ decodes.isEmpty then
      (st5, .error .insufficientCapacity)
    else (st5, .ok (prefills, decodes))
  else
    match launch with
    | .raiseRuntime =>
      let st4 := releaseAll st3 (existing_prefills ++ existing_decodes)
      (st4, .error .raised)
    | .ok new_instances =>
      if new_instances.isEmpty then (st3, .error .insufficientCapacity)
      else
        let st4 := acquireAll st3 new_instances
        let new_prefills := new_instances.filter
          (fun w => w.wtype = .prefill)
        let new_decodes := new_instances.filter
          (fun w => w.wtype = .decode)
        let prefills := existing_prefills ++ new_prefills
        let decodes := existing_decodes ++ new_decodes
        if prefills.isEmpty ∨ decodes.isEmpty then
          (st4, .error .insufficientCapacity)
        else (st4, .ok (prefills, decodes))

/-- C2: at the failing input — a local request for 2 workers with one
matching existing worker (id 0) in the pool and `launch_workers` raising
`RuntimeError` — the call fails with `InsufficientCapacity` but the
existing worker's auto-acquired reference count stays incremented (net
+1), because the `except` block releases the still-empty `instances`
list; the PD path at the analogous input releases its acquired existing
worker before re-raising (net 0), matching the claimed behaviour. -/
theorem setup_local_backend_refcount_leak :
    (_setup_local_backend_acquire [⟨0, .grpc, .regular⟩] .grpc 2
        .raiseRuntime (fun _ => 0)).2 = .error .insufficientCapacity ∧
    (_setup_local_backend_acquire [⟨0, .grpc, .regular⟩] .grpc 2
        .raiseRuntime (fun _ => 0)).1 0 = 1 ∧
    (_setup_pd_backend_acquire [⟨0, .grpc, .prefill⟩] [] .grpc 1 1
        .raiseRuntime (fun _ => 0)).2 = .error .raised ∧
    (_setup_pd_backend_acquire [⟨0, .grpc, .prefill⟩] [] .grpc 1 1
        .raiseRuntime (fun _ => 0)).1 0 = 0 := by
  refine ⟨rfl, ?_, rfl, ?_⟩ <;> decide

/-! ## ServeOrchestrator (serve.py:493-596)

Time is a `Nat` monotonic clock.  Each worker's health-wait behaviour is
an oracle stream: iteration `k` of the per-worker poll loop observes
either process exit with a code, a healthy probe, or an unready probe;
an unready iteration consumes the probe duration plus the 2-second sleep.
The shutdown phase's oracle maps a pid to the absolute time its process
group exits after the terminate signal (`none`: never, until killed). -/

inductive Event where
  | launched (pid port : Nat)
  | sigterm (pgid : Nat)
  | sigkill (pgid : Nat)
  deriving DecidableEq, Repr

inductive Obs where
  | exited (code : Int)
  | healthyObs
  | notReady
  deriving DecidableEq, Repr

structure WorkerEnv where
  obs : Nat → Obs
  hdur : Nat → Nat

inductive WaitErr where
  | workerExited (port : Nat) (code : Int)
  | healthTimeout (port : Nat)
  deriving DecidableEq, Repr

structure WaitRes where
  result : Except WaitErr Unit
  endTime : Nat
  iters : Nat
  deriving Repr

/-- The per-worker loop of `_wait_healthy` (serve.py:543-554):
`deadline = now + timeout` is fixed at entry; while the clock is before
the deadline the loop polls the process (raising `WorkerExited`
immediately at the poll), probes health (breaking on success), and
sleeps 2 seconds; exhausting the deadline raises the per-worker timeout.
`fuel` bounds the remaining iterations; every recursing iteration
advances the clock by at least 2, and `waitOneLoop_fuel_irrelevant`
shows any fuel above `deadline - now` gives the same result. -/
def waitOneLoop (w : WorkerEnv) (port deadline : Nat) :
    Nat → Nat → Nat → WaitRes
  | fuel, k, now =>
    if now < deadline then
      match fuel with
      | 0 => ⟨.error (.healthTimeout port), now, k⟩
      | fuel + 1 =>
        match w.obs k with
        | .exited c => ⟨.error (.workerExited port c), now, k + 1⟩
        | .healthyObs => ⟨.ok (), now + w.hdur k, k + 1⟩
        | .notReady =>
          waitOneLoop w port deadline fuel (k + 1) (now + w.hdur k + 2)
    else ⟨.error (.healthTimeout port), now, k⟩

/-- One worker's wait, starting at clock `t0`: fuel `timeout + 1`
strictly exceeds `deadline - t0 = timeout`. -/
def waitOne (w : WorkerEnv) (port timeout t0 : Nat) : WaitRes :=
  waitOneLoop w port (t0 + timeout) (timeout + 1) 0 t0

/-- `_wait_healthy` (serve.py:540-554): sequential over workers, each
with a fresh deadline; the first failure propagates. -/
def _wait_healthy (wenvs : Nat → WorkerEnv) (timeout : Nat) :
    List (Nat × Nat) → Nat → Except WaitErr Unit × Nat
  | [], now => (.ok (), now)
  | (pid, port) :: rest, now =>
    let res := waitOne (wenvs pid) port timeout now
    match res.result with
    | .ok _ => _wait_healthy wenvs timeout rest res.endTime
    | .error e => (.error e, res.endTime)

/-- Whether the process group of a worker whose exit-time oracle is
`exit` has exited by time `d`. -/
def exitsBy (exit : Option Nat) (d : Nat) : Bool :=
  match exit with
  | some t => t ≤ d
  | none => false

/-- The wait-and-escalate loop of `_cleanup_workers` (serve.py:586-595):
for each worker in turn, `remaining = max(0, deadline - now)` and
`proc.wait(timeout=remaining)`; a `TimeoutExpired` is followed by a kill
signal to the worker's process group. -/
def cleanupWait (exitAt : Nat → Option Nat) (deadline : Nat) :
    List (Nat × Nat) → Nat → Nat × List Event
  | [], now => (now, [])
  | (pid, _) :: rest, now =>
    let remaining := deadline - now
    match exitAt pid with
    | some t =>
      if t ≤ now + remaining then
        cleanupWait exitAt deadline rest (max now t)
      else
        let r := cleanupWait exitAt deadline rest (now + remaining)
        (r.1, .sigkill pid :: r.2)
    | none =>
      let r := cleanupWait exitAt deadline rest (now + remaining)
      (r.1, .sigkill pid :: r.2)

/-- `_WORKER_SHUTDOWN_TIMEOUT` (serve.py:493). -/
def _WORKER_SHUTDOWN_TIMEOUT : Nat := 30

/-- `_cleanup_workers` (serve.py:573-595): no-op on an empty worker
list; otherwise one terminate signal per worker's process group (errors
tolerated), then the single fixed budget `deadline = now + 30` computed
once, then the wait-and-escalate loop. -/
def _cleanup_workers (exitAt : Nat → Option Nat)
    (workers : List (Nat × Nat)) (t0 : Nat) : Nat × List Event :=
  if workers.isEmpty then (t0, [])
  else
    let termEvents := workers.map (fun w => Event.sigterm w.1)
    let deadline := t0 + _WORKER_SHUTDOWN_TIMEOUT
    let r := cleanupWait exitAt deadline workers t0
    (r.1, termEvents ++ r.2)

/-- The mutable orchestrator fields consulted by `_signal_handler`. -/
structure OrchCtx where
  workers : List (Nat × Nat)
  shuttingDown : Bool
  deriving Repr

/-- `_signal_handler` (serve.py:565-571): re-entry while the guard flag
is set is a no-op; otherwise set the flag, run `_cleanup_workers`, and
exit with `128 + signum`.  Returns the new state, the signals sent, and
the exit code if the process exits. -/
def _signal_handler (exitAt : Nat → Option Nat) (signum : Nat)
    (st : OrchCtx) (now : Nat) : OrchCtx × List Event × Option Nat :=
  if st.shuttingDown then (st, [], none)
  else
    let st' := { st with shuttingDown := true }
    let evs := (_cleanup_workers exitAt st.workers now).2
    (st', evs, some (128 + signum))

/-- The full environment `ServeOrchestrator.run` interacts with. -/
structure OrchEnv where
  avail : Nat → Bool
  rand : Nat → Nat
  worker_base_port : Nat
  data_parallel_size : Nat
  worker_startup_timeout : Nat
  pidOf : Nat → Nat
  launchFail : Nat → Bool
  wenvs : Nat → WorkerEnv
  exitAt : Nat → Option Nat
  routerRaises : Bool

inductive RunErr where
  | resourceExhausted
  | launchFailure (dp_rank : Nat)
  | waitErr (e : WaitErr)
  | routerErr
  deriving DecidableEq, Repr

/-- The launch loop of `_launch_workers` (serve.py:524-538): one process
per rank; a failed `Popen` aborts the loop, keeping the workers already
started. -/
def launchLoop (env : OrchEnv) : List Nat → Nat →
    List (Nat × Nat) × Option RunErr
  | [], _ => ([], none)
  | port :: rest, dp_rank =>
    if env.launchFail dp_rank then ([], some (.launchFailure dp_rank))
    else
      let (ws, err) := launchLoop env rest (dp_rank + 1)
      ((env.pidOf dp_rank, port) :: ws, err)

/-- `ServeOrchestrator.run` (serve.py:509-521): launch → wait healthy →
router, with `_cleanup_workers` in a `finally` block, so teardown runs
before any error propagates.  The clock starts at 0 and the wait phase's
end time is when cleanup begins. -/
def run (env : OrchEnv) : List Event × Except RunErr Unit :=
  match findPorts env.avail env.rand env.worker_base_port
      env.data_parallel_size with
  | .error _ => ([], .error .resourceExhausted)
  | .ok ports =>
    match launchLoop env ports 0 with
    | (workers, some e) =>
      (workers.map (fun w => Event.launched w.1 w.2) ++
        (_cleanup_workers env.exitAt workers 0).2, .error e)
    | (workers, none) =>
      match _wait_healthy env.wenvs env.worker_startup_timeout workers 0
        with
      | (.error e, t) =>
        (workers.map (fun w => Event.launched w.1 w.2) ++
          (_cleanup_workers env.exitAt workers t).2, .error (.waitErr e))
      | (.ok _, t) =>
        (workers.map (fun w => Event.launched w.1 w.2) ++
          (_cleanup_workers env.exitAt workers t).2,
         if env.routerRaises then .error .routerErr else .ok ())

/-- The wait-and-escalate loop kills exactly the workers whose process
group has not exited by the fixed deadline: `now + remaining = deadline`
throughout, because every wait is capped at the remaining budget. -/
theorem cleanupWait_events (exitAt : Nat → Option Nat) (deadline : Nat) :
    ∀ ws now, now ≤ deadline →
      (cleanupWait exitAt deadline ws now).2 =
        (ws.filter (fun w => !exitsBy (exitAt w.1) deadline)).map
          (fun w => Event.sigkill w.1) := by
  intro ws
  induction ws with
  | nil => intro now _; rfl
  | cons w rest ih =>
    intro now hnow
    obtain ⟨pid, port⟩ := w
    have hrem : now + (deadline - now) = deadline := by omega
    rw [cleanupWait]
    cases hx : exitAt pid with
    | some t =>
      dsimp only
      by_cases ht : t ≤ deadline
      · rw [if_pos (by omega)]
        rw [ih (max now t) (by omega)]
        have hex : exitsBy (exitAt (pid, port).1) deadline = true := by
          simp [exitsBy, hx, ht]
        rw [List.filter_cons_of_neg (by simp [hex])]
      · rw [if_neg (by omega)]
        have hex : exitsBy (exitAt (pid, port).1) deadline = false := by
          simp only [exitsBy, hx, decide_eq_false_iff_not]
          omega
        rw [List.filter_cons_of_pos (by simp [hex])]
        simp only [hrem]
        rw [List.map_cons, ← ih deadline (le_refl _)]
    | none =>
      dsimp only
      have hex : exitsBy (exitAt (pid, port).1) deadline = false := by
        simp [exitsBy, hx]
      rw [List.filter_cons_of_pos (by simp [hex])]
      simp only [hrem]
      rw [List.map_cons, ← ih deadline (le_refl _)]

theorem count_map_sigterm (p : Nat) :
    ∀ ws : List (Nat × Nat),
      (ws.map (fun w => Event.sigterm w.1)).count (Event.sigterm p) =
        (ws.map Prod.fst).count p := by
  intro ws
  induction ws with
  | nil => rfl
  | cons w rest ih => simp [List.count_cons, ih]

theorem count_map_sigkill (p : Nat) :
    ∀ ws : List (Nat × Nat),
      (ws.map (fun w => Event.sigkill w.1)).count (Event.sigkill p) =
        (ws.map Prod.fst).count p := by
  intro ws
  induction ws with
  | nil => rfl
  | cons w rest ih => simp [List.count_cons, ih]

theorem count_sigterm_in_kills (p : Nat) :
    ∀ ws : List (Nat × Nat),
      (ws.map (fun w => Event.sigkill w.1)).count (Event.sigterm p) = 0 := by
  intro ws
  induction ws with
  | nil => rfl
  | cons w rest ih => simp [List.count_cons, ih]

theorem count_sigkill_in_terms (p : Nat) :
    ∀ ws : List (Nat × Nat),
      (ws.map (fun w => Event.sigterm w.1)).count (Event.sigkill p) = 0 := by
  intro ws
  induction ws with
  | nil => rfl
  | cons w rest ih => simp [List.count_cons, ih]

theorem count_fst_not_mem (p : Nat) (pred : (Nat × Nat) → Bool) :
    ∀ ws : List (Nat × Nat), p ∉ ws.map Prod.fst →
      ((ws.filter pred).map Prod.fst).count p = 0 := by
  intro ws hp
  rw [List.count_eq_zero]
  intro hmem
  apply hp
  obtain ⟨w, hw, rfl⟩ := List.mem_map.mp hmem
  exact List.mem_map_of_mem _ (List.mem_of_mem_filter hw)

theorem count_fst_filter (p : Nat) (pred : (Nat × Nat) → Bool) :
    ∀ ws : List (Nat × Nat), (ws.map Prod.fst).Nodup →
      ∀ w ∈ ws, w.1 = p →
      ((ws.filter pred).map Prod.fst).count p =
        if pred w then 1 else 0 := by
  intro ws
  induction ws with
  | nil => intro _ w hw; simp at hw
  | cons u rest ih =>
    intro hnd w hw hp
    have hnd' : (rest.map Prod.fst).Nodup :=
      (List.nodup_cons.mp (by simpa using hnd)).2
    have hu : u.1 ∉ rest.map Prod.fst :=
      (List.nodup_cons.mp (by simpa using hnd)).1
    rcases List.mem_cons.mp hw with rfl | hw'
    · subst hp
      by_cases hpr : pred w
      · rw [List.filter_cons_of_pos hpr, List.map_cons, List.count_cons,
          count_fst_not_mem w.1 pred rest hu, if_pos hpr]
        simp
      · rw [List.filter_cons_of_neg hpr,
          count_fst_not_mem w.1 pred rest hu, if_neg hpr]
    · have hune : ¬(p = u.1) := by
        intro h
        rw [← hp] at h
        exact hu (h ▸ List.mem_map_of_mem Prod.fst hw')
      by_cases hpr : pred u
      · rw [List.filter_cons_of_pos hpr, List.map_cons, List.count_cons,
          ih hnd' w hw' hp]
        have hune' : ¬u.1 = p := fun h => hune h.symm
        simp [hune, hune']
      · rw [List.filter_cons_of_neg hpr, ih hnd' w hw' hp]

/-- C3: for every launched worker set (with distinct pids), the shutdown
sequencer emits one terminate signal per worker's process group first,
then — against the single budget `deadline = t0 + 30` computed once —
kills exactly the workers still alive when their share of the budget
elapses: each worker gets exactly one terminate signal, and exactly one
kill signal iff its process group has not exited by the deadline, so a
worker exiting within the graceful window never receives a kill. -/
theorem cleanup_workers_escalation (exitAt : Nat → Option Nat)
    (workers : List (Nat × Nat)) (t0 : Nat)
    (hnodup : (workers.map Prod.fst).Nodup) :
    ((_cleanup_workers exitAt workers t0).2 =
      workers.map (fun w => Event.sigterm w.1) ++
        (workers.filter (fun w =>
          !exitsBy (exitAt w.1) (t0 + _WORKER_SHUTDOWN_TIMEOUT))).map
          (fun w => Event.sigkill w.1)) ∧
    ∀ w ∈ workers,
      (_cleanup_workers exitAt workers t0).2.count (Event.sigterm w.1) =
        1 ∧
      (_cleanup_workers exitAt workers t0).2.count (Event.sigkill w.1) =
        (if exitsBy (exitAt w.1) (t0 + _WORKER_SHUTDOWN_TIMEOUT) then 0
         else 1) := by
  have hev : (_cleanup_workers exitAt workers t0).2 =
      workers.map (fun w => Event.sigterm w.1) ++
        (workers.filter (fun w =>
          !exitsBy (exitAt w.1) (t0 + _WORKER_SHUTDOWN_TIMEOUT))).map
          (fun w => Event.sigkill w.1) := by
    rw [_cleanup_workers]
    by_cases hemp : workers.isEmpty
    · rw [if_pos hemp]
      rw [List.isEmpty_iff] at hemp
      subst hemp
      rfl
    · rw [if_neg hemp]
      dsimp only
      rw [cleanupWait_events exitAt _ workers t0 (Nat.le_add_right _ _)]
  refine ⟨hev, fun w hw => ?_⟩
  rw [hev, List.count_append, List.count_append]
  constructor
  · rw [count_map_sigterm, count_sigterm_in_kills,
      List.count_eq_one_of_mem hnodup (List.mem_map_of_mem Prod.fst hw)]
  · rw [count_sigkill_in_terms]
    have := count_map_sigkill w.1
      (workers.filter (fun w =>
        !exitsBy (exitAt w.1) (t0 + _WORKER_SHUTDOWN_TIMEOUT)))
    rw [this, count_fst_filter w.1 _ workers hnodup w hw rfl]
    by_cases hex : exitsBy (exitAt w.1) (t0 + _WORKER_SHUTDOWN_TIMEOUT)
    · rw [if_pos hex, if_neg (by simp [hex])]
    · rw [if_neg hex, if_pos (by simp [hex])]

/-- Concrete instantiation of `cleanup_workers_escalation`: pid 100 exits
5 seconds after the terminate signal and is never killed; pid 200 never
exits and receives exactly one kill. -/
theorem cleanup_workers_escalation_witness :
    ((_cleanup_workers
        (fun p => if p = 100 then some 5 else none)
        [(100, 31000), (200, 31001)] 0).2.count (Event.sigterm 100) = 1 ∧
      (_cleanup_workers
        (fun p => if p = 100 then some 5 else none)
        [(100, 31000), (200, 31001)] 0).2.count (Event.sigkill 100) =
        0) ∧
    (_cleanup_workers
        (fun p => if p = 100 then some 5 else none)
        [(100, 31000), (200, 31001)] 0).2.count (Event.sigkill 200) =
      1 := by
  have h100 := (cleanup_workers_escalation
    (fun p => if p = 100 then some 5 else none)
    [(100, 31000), (200, 31001)] 0 (by decide)).2 (100, 31000)
    (by decide)
  have h200 := (cleanup_workers_escalation
    (fun p => if p = 100 then some 5 else none)
    [(100, 31000), (200, 31001)] 0 (by decide)).2 (200, 31001)
    (by decide)
  exact ⟨⟨h100.1, by simpa using h100.2⟩, by simpa using h200.2⟩

/-- C4: re-entry of the shutdown signal handler while the guard flag is
set is a no-op that sends no signals; a first invocation sets the flag,
runs the cleanup path, and exits with `128 + signum`, and a second
invocation in succession changes nothing and sends nothing. -/
theorem signal_handler_idempotent (exitAt : Nat → Option Nat) :
    (∀ (signum : Nat) (st : OrchCtx) (now : Nat),
      st.shuttingDown = true →
      _signal_handler exitAt signum st now = (st, [], none)) ∧
    (∀ (signum signum' : Nat) (st : OrchCtx) (now now' : Nat),
      st.shuttingDown = false →
      ((_signal_handler exitAt signum st now).1.shuttingDown = true ∧
       (_signal_handler exitAt signum st now).2.2 =
         some (128 + signum) ∧
       (_signal_handler exitAt signum st now).2.1 =
         (_cleanup_workers exitAt st.workers now).2 ∧
       _signal_handler exitAt signum'
           (_signal_handler exitAt signum st now).1 now' =
         ((_signal_handler exitAt signum st now).1, [], none))) := by
  constructor
  · intro signum st now h
    rw [_signal_handler, if_pos h]
  · intro signum signum' st now now' h
    rw [_signal_handler, if_neg (by simp [h])]
    refine ⟨rfl, rfl, rfl, ?_⟩
    rw [_signal_handler, if_pos rfl]

/-- Concrete instantiation of `signal_handler_idempotent`: after a first
SIGINT (signal 2) the handler exits with 130, and a second invocation
sends no signals. -/
theorem signal_handler_idempotent_witness :
    ((_signal_handler (fun _ => none) 2 ⟨[(5, 31000)], false⟩ 0).2.2 =
      some 130) ∧
    _signal_handler (fun _ => none) 2
        (_signal_handler (fun _ => none) 2 ⟨[(5, 31000)], false⟩ 0).1 7 =
      ((_signal_handler (fun _ => none) 2 ⟨[(5, 31000)], false⟩ 0).1, [],
        none) := by
  have h := (signal_handler_idempotent (fun _ => none)).2 2 2
    ⟨[(5, 31000)], false⟩ 0 7 rfl
  exact ⟨h.2.1, h.2.2.2⟩

/-- Total clock time consumed by `j` consecutive unready iterations of
the poll loop starting at iteration `k`: each takes the probe duration
plus the 2-second sleep. -/
def elapsedBefore (w : WorkerEnv) : Nat → Nat → Nat
  | _, 0 => 0
  | k, j + 1 => w.hdur k + 2 + elapsedBefore w (k + 1) j

/-- Any fuel strictly above `deadline - now` gives the same wait result:
every recursing iteration advances the clock by at least 2 while the
loop only continues strictly before the deadline. -/
theorem waitOneLoop_fuel_irrelevant (w : WorkerEnv) (port deadline : Nat) :
    ∀ fuel k now, deadline - now < fuel →
      waitOneLoop w port deadline fuel k now =
        waitOneLoop w port deadline (fuel + 1) k now := by
  intro fuel
  induction fuel with
  | zero => intro k now h; omega
  | succ fuel ih =>
    intro k now h
    rw [waitOneLoop, waitOneLoop]
    by_cases hlt : now < deadline
    · rw [if_pos hlt, if_pos hlt]
      cases hobs : w.obs k with
      | exited c => rfl
      | healthyObs => rfl
      | notReady => exact ih (k + 1) (now + w.hdur k + 2) (by omega)
    · rw [if_neg hlt, if_neg hlt]

/-- If worker `w` is observed exited with code `c` at iteration `j`,
after `j` unready iterations all strictly before the deadline, the wait
loop stops at exactly that iteration with `WorkerExited c` — regardless
of how much of the timeout budget remains. -/
theorem waitOneLoop_exits (w : WorkerEnv) (port deadline : Nat) (c : Int) :
    ∀ j k now fuel,
      w.obs (k + j) = .exited c →
      (∀ m, m < j → w.obs (k + m) = .notReady) →
      now + elapsedBefore w k j < deadline →
      deadline - now < fuel →
      waitOneLoop w port deadline fuel k now =
        ⟨.error (.workerExited port c), now + elapsedBefore w k j,
          k + j + 1⟩ := by
  intro j
  induction j with
  | zero =>
    intro k now fuel hobs hnr htime hfuel
    rw [elapsedBefore] at htime ⊢
    cases fuel with
    | zero => omega
    | succ fuel =>
      rw [waitOneLoop, if_pos (by omega)]
      rw [show k + 0 = k from rfl] at hobs
      rw [hobs]
      simp
  | succ j ih =>
    intro k now fuel hobs hnr htime hfuel
    have hobs0 : w.obs k = .notReady := by
      have h0 := hnr 0 (Nat.succ_pos j)
      simpa using h0
    rw [elapsedBefore] at htime
    have hlt : now < deadline := by omega
    cases fuel with
    | zero => omega
    | succ fuel =>
      rw [waitOneLoop, if_pos hlt]
      rw [hobs0]
      have hobs' : w.obs (k + 1 + j) = .exited c := by
        have hidx : k + 1 + j = k + (j + 1) := by omega
        rw [hidx]
        exact hobs
      have hnr' : ∀ m, m < j → w.obs (k + 1 + m) = .notReady := by
        intro m hm
        have hidx : k + 1 + m = k + (m + 1) := by omega
        rw [hidx]
        exact hnr (m + 1) (by omega)
      rw [ih (k + 1) (now + w.hdur k + 2) fuel hobs' hnr' (by omega)
        (by omega)]
      rw [elapsedBefore]
      simp only [WaitRes.mk.injEq]
      refine ⟨trivial, by omega, by omega⟩

/-- Corollary at the top level of one worker's wait. -/
theorem waitOne_exits (w : WorkerEnv) (port timeout t0 : Nat) (c : Int)
    (j : Nat) (hobs : w.obs j = .exited c)
    (hnr : ∀ m, m < j → w.obs m = .notReady)
    (htime : elapsedBefore w 0 j < timeout) :
    waitOne w port timeout t0 =
      ⟨.error (.workerExited port c), t0 + elapsedBefore w 0 j, j + 1⟩ := by
  rw [waitOne]
  have h := waitOneLoop_exits w port (t0 + timeout) c j 0 t0 (timeout + 1)
    (by simpa using hobs) (fun m hm => by simpa using hnr m hm)
    (by omega) (by omega)
  simpa using h

/-- A worker whose first probe succeeds waits for exactly one
iteration. -/
theorem waitOne_healthy (w : WorkerEnv) (port timeout t0 : Nat)
    (hobs : w.obs 0 = .healthyObs) (ht : 0 < timeout) :
    waitOne w port timeout t0 = ⟨.ok (), t0 + w.hdur 0, 1⟩ := by
  rw [waitOne, waitOneLoop, if_pos (by omega)]
  rw [hobs]

/-- Sequential health waiting surfaces the first worker failure: if every
worker before the failing one waits successfully from any start time and
the failing worker's wait errs from any start time, the whole phase errs
with that error. -/
theorem wait_healthy_error (wenvs : Nat → WorkerEnv) (timeout : Nat)
    (pid port : Nat) (e : WaitErr) :
    ∀ ws1 ws2 now,
      (∀ w ∈ ws1, ∀ t0,
        (waitOne (wenvs w.1) w.2 timeout t0).result = .ok ()) →
      (∀ t0, (waitOne (wenvs pid) port timeout t0).result = .error e) →
      (_wait_healthy wenvs timeout (ws1 ++ (pid, port) :: ws2) now).1 =
        .error e := by
  intro ws1
  induction ws1 with
  | nil =>
    intro ws2 now _ herr
    rw [List.nil_append, _wait_healthy]
    rw [herr now]
  | cons w ws1 ih =>
    intro ws2 now hok herr
    obtain ⟨p, q⟩ := w
    rw [List.cons_append, _wait_healthy]
    rw [hok (p, q) (List.mem_cons_self _ _) now]
    exact ih ws2 _ (fun w hw t0 => hok w (List.mem_cons_of_mem _ hw) t0)
      herr

/-- Events emitted by `_cleanup_workers`: terminate signals to every
worker in order, then kill signals to exactly the workers whose process
group misses the fixed deadline. -/
theorem cleanup_workers_events (exitAt : Nat → Option Nat)
    (workers : List (Nat × Nat)) (t0 : Nat) :
    (_cleanup_workers exitAt workers t0).2 =
      workers.map (fun w => Event.sigterm w.1) ++
        (workers.filter (fun w =>
          !exitsBy (exitAt w.1) (t0 + _WORKER_SHUTDOWN_TIMEOUT))).map
          (fun w => Event.sigkill w.1) := by
  rw [_cleanup_workers]
  by_cases hemp : workers.isEmpty
  · rw [if_pos hemp]
    rw [List.isEmpty_iff] at hemp
    subst hemp
    rfl
  · rw [if_neg hemp]
    dsimp only
    rw [cleanupWait_events exitAt _ workers t0 (Nat.le_add_right _ _)]

theorem cleanup_mem_sigterm (exitAt : Nat → Option Nat)
    (workers : List (Nat × Nat)) (t0 : Nat) (w : Nat × Nat)
    (hw : w ∈ workers) :
    Event.sigterm w.1 ∈ (_cleanup_workers exitAt workers t0).2 := by
  rw [cleanup_workers_events]
  exact List.mem_append_left _ (List.mem_map_of_mem _ hw)

theorem launched_not_in_cleanup (exitAt : Nat → Option Nat)
    (workers : List (Nat × Nat)) (t0 : Nat) (pid port : Nat) :
    Event.launched pid port ∉ (_cleanup_workers exitAt workers t0).2 := by
  rw [cleanup_workers_events]
  intro h
  rcases List.mem_append.mp h with h' | h'
  · obtain ⟨w, _, heq⟩ := List.mem_map.mp h'
    exact Event.noConfusion heq
  · obtain ⟨w, _, heq⟩ := List.mem_map.mp h'
    exact Event.noConfusion heq

/-- C1: a worker process exiting with code `c` during the health-wait
phase makes the orchestrator raise `WorkerExited` carrying `c`
immediately — the failing worker's poll loop stops at the very iteration
observing the exit, not at the startup timeout — and on every fatal
error during the launch or health-wait phases (any error result of
`run`), every already-started worker receives a terminate signal in the
teardown performed before the error propagates. -/
theorem run_worker_exited_teardown :
    (∀ (env : OrchEnv) (tr : List Event) (e : RunErr),
      run env = (tr, .error e) →
      ∀ pid port, Event.launched pid port ∈ tr →
        Event.sigterm pid ∈ tr) ∧
    (∀ (env : OrchEnv) (ports : List Nat) (ws1 ws2 : List (Nat × Nat))
        (pid port : Nat) (c : Int) (j : Nat),
      findPorts env.avail env.rand env.worker_base_port
          env.data_parallel_size = .ok ports →
      launchLoop env ports 0 = (ws1 ++ (pid, port) :: ws2, none) →
      (∀ w ∈ ws1, ∀ t0,
        (waitOne (env.wenvs w.1) w.2 env.worker_startup_timeout
          t0).result = .ok ()) →
      (env.wenvs pid).obs j = .exited c →
      (∀ m, m < j → (env.wenvs pid).obs m = .notReady) →
      elapsedBefore (env.wenvs pid) 0 j < env.worker_startup_timeout →
      ((run env).2 = .error (.waitErr (.workerExited port c)) ∧
       (∀ t0, (waitOne (env.wenvs pid) port env.worker_startup_timeout
           t0).iters = j + 1) ∧
       ∀ w ∈ ws1 ++ (pid, port) :: ws2,
         Event.sigterm w.1 ∈ (run env).1)) := by
  constructor
  · intro env tr e hrun pid port hlp
    rw [run] at hrun
    cases hfp : findPorts env.avail env.rand env.worker_base_port
        env.data_parallel_size with
    | error pe =>
      rw [hfp] at hrun
      injection hrun with h1 h2
      subst h1
      simp at hlp
    | ok ports =>
      rw [hfp] at hrun
      dsimp only at hrun
      cases hll : launchLoop env ports 0 with
      | mk workers errOpt =>
        rw [hll] at hrun
        cases errOpt with
        | some e' =>
          injection hrun with h1 h2
          subst h1
          rcases List.mem_append.mp hlp with h | h
          · obtain ⟨w, hw, heq⟩ := List.mem_map.mp h
            obtain ⟨rfl, rfl⟩ : w.1 = pid ∧ w.2 = port := by
              cases heq
              exact ⟨rfl, rfl⟩
            exact List.mem_append_right _
              (cleanup_mem_sigterm env.exitAt workers 0 w hw)
          · exact absurd h
              (launched_not_in_cleanup env.exitAt workers 0 pid port)
        | none =>
          dsimp only at hrun
          cases hwh : _wait_healthy env.wenvs env.worker_startup_timeout
              workers 0 with
          | mk res t =>
            rw [hwh] at hrun
            cases res with
            | error we =>
              injection hrun with h1 h2
              subst h1
              rcases List.mem_append.mp hlp with h | h
              · obtain ⟨w, hw, heq⟩ := List.mem_map.mp h
                obtain ⟨rfl, rfl⟩ : w.1 = pid ∧ w.2 = port := by
                  cases heq
                  exact ⟨rfl, rfl⟩
                exact List.mem_append_right _
                  (cleanup_mem_sigterm env.exitAt workers t w hw)
              · exact absurd h
                  (launched_not_in_cleanup env.exitAt workers t pid port)
            | ok u =>
              dsimp only at hrun
              by_cases hrr : env.routerRaises
              · rw [if_pos hrr] at hrun
                injection hrun with h1 h2
                subst h1
                rcases List.mem_append.mp hlp with h | h
                · obtain ⟨w, hw, heq⟩ := List.mem_map.mp h
                  obtain ⟨rfl, rfl⟩ : w.1 = pid ∧ w.2 = port := by
                    cases heq
                    exact ⟨rfl, rfl⟩
                  exact List.mem_append_right _
                    (cleanup_mem_sigterm env.exitAt workers t w hw)
                · exact absurd h
                    (launched_not_in_cleanup env.exitAt workers t pid
                      port)
              · rw [if_neg hrr] at hrun
                injection hrun with h1 h2
                exact Except.noConfusion h2
  · intro env ports ws1 ws2 pid port c j hfp hll hok hobs hnr htime
    have herr : ∀ t0,
        (waitOne (env.wenvs pid) port env.worker_startup_timeout
          t0).result = .error (.workerExited port c) := by
      intro t0
      rw [waitOne_exits (env.wenvs pid) port env.worker_startup_timeout
        t0 c j hobs hnr htime]
    have hiters : ∀ t0,
        (waitOne (env.wenvs pid) port env.worker_startup_timeout
          t0).iters = j + 1 := by
      intro t0
      rw [waitOne_exits (env.wenvs pid) port env.worker_startup_timeout
        t0 c j hobs hnr htime]
    have hwh1 : (_wait_healthy env.wenvs env.worker_startup_timeout
        (ws1 ++ (pid, port) :: ws2) 0).1 =
        .error (.workerExited port c) :=
      wait_healthy_error env.wenvs env.worker_startup_timeout pid port _
        ws1 ws2 0 hok herr
    cases hwh : _wait_healthy env.wenvs env.worker_startup_timeout
        (ws1 ++ (pid, port) :: ws2) 0 with
    | mk res t =>
      rw [hwh] at hwh1
      dsimp only at hwh1
      subst hwh1
      have hrun : run env =
          ((ws1 ++ (pid, port) :: ws2).map
              (fun w => Event.launched w.1 w.2) ++
            (_cleanup_workers env.exitAt (ws1 ++ (pid, port) :: ws2)
              t).2,
           .error (.waitErr (.workerExited port c))) := by
        rw [run, hfp]
        dsimp only
        rw [hll]
        dsimp only
        rw [hwh]
      refine ⟨by rw [hrun], hiters, fun w hw => ?_⟩
      rw [hrun]
      exact List.mem_append_right _
        (cleanup_mem_sigterm env.exitAt _ t w hw)

/-- A concrete two-worker scenario for `run_worker_exited_teardown`:
worker rank 0 (pid 100) becomes healthy, worker rank 1 (pid 101) exits
with code 1 at its second poll iteration. -/
def c1Env : OrchEnv :=
  ⟨fun _ => true, fun _ => 0, 31000, 2, 300,
   fun r => r + 100, fun _ => false,
   fun p =>
     if p = 101 then
       ⟨fun k => if k = 0 then Obs.notReady else Obs.exited 1,
        fun _ => 0⟩
     else ⟨fun _ => Obs.healthyObs, fun _ => 0⟩,
   fun _ => none, false⟩

/-- Concrete instantiation of `run_worker_exited_teardown`: in `c1Env`
the run fails with `WorkerExited(1)` on port 31001, the failing worker's
wait stops after 2 iterations, and the healthy sibling (pid 100)
receives a terminate signal. -/
theorem run_worker_exited_teardown_witness :
    (run c1Env).2 = .error (.waitErr (.workerExited 31001 1)) ∧
    (waitOne (c1Env.wenvs 101) 31001 c1Env.worker_startup_timeout
      0).iters = 2 ∧
    Event.sigterm 100 ∈ (run c1Env).1 := by
  have hok : ∀ w ∈ [((100 : Nat), (31000 : Nat))], ∀ t0,
      (waitOne (c1Env.wenvs w.1) w.2 c1Env.worker_startup_timeout
        t0).result = .ok () := by
    intro w hw t0
    have hw' : w = (100, 31000) := by simpa using hw
    subst hw'
    rw [waitOne_healthy (c1Env.wenvs 100) 31000
      c1Env.worker_startup_timeout t0 (by decide) (by decide)]
  have h := run_worker_exited_teardown.2 c1Env [31000, 31001]
    [(100, 31000)] [] 101 31001 1 1 rfl rfl hok (by decide)
    (fun m hm => by
      have hm0 : m = 0 := by omega
      subst hm0
      decide)
    (by decide)
  exact ⟨h.1, h.2.1 0, h.2.2 (100, 31000) (by decide)⟩

end Smg
